import Mathlib

/-!
# Verification of the `TurnTracker` component (src/turn_tracker.rs)

Shallow embedding of the turn-rotation tracker: an ordered roster of
players, a cursor (`next_player_index`) pointing at the player whose turn
is next, and a `single_player_mode_started` flag coupling `advance_player`
to `add_player`.  Rust panics are modelled by `Option`-valued operations
returning `none`.
-/

/-- A player: a unique name plus presentation data (the display color)
that the tracker never interprets.  The color is modelled as a `Nat`. -/
structure User where
  name : String
  color : Nat
deriving DecidableEq, Repr

/-- The tracker state, mirroring the Rust struct field by field. -/
structure TurnTracker where
  players : List User
  next_player_index : Nat
  single_player_mode_started : Bool
deriving DecidableEq, Repr

/-- `TurnTracker::new`: roster as given, cursor 0, flag false. -/
def TurnTracker.new (players : List User) : TurnTracker :=
  { players := players, next_player_index := 0, single_player_mode_started := false }

/-- `TurnTracker::is_playing`. -/
def TurnTracker.is_playing (t : TurnTracker) (username : String) : Bool :=
  t.players.any (fun p => p.name == username)

/-- Itertools' `find_position`: index of the first element satisfying `p`. -/
def find_position (p : α → Bool) : List α → Option Nat
  | [] => none
  | a :: l => if p a then some 0 else (find_position p l).map (· + 1)

/-- `TurnTracker::remove_player`.  The Rust code `unwrap`s the lookup
(panic when the name is absent, modelled as `none`), adjusts the cursor,
then rebuilds the roster by filtering out the matching name. -/
def TurnTracker.remove_player (t : TurnTracker) (username : String) : Option TurnTracker :=
  match find_position (fun u => u.name == username) t.players with
  | none => none
  | some i =>
    let c := t.next_player_index
    let c' :=
      if i ≤ c then
        if i < c then c - 1
        else if c = t.players.length - 1 then 0
        else c
      else c
    some { players := t.players.filter (fun u => u.name != username),
           next_player_index := c',
           single_player_mode_started := t.single_player_mode_started }

/-- `TurnTracker::add_player`.  Panics (modelled as `none`) on a duplicate
name; otherwise appends and applies the single-player cursor correction. -/
def TurnTracker.add_player (t : TurnTracker) (user : User) : Option TurnTracker :=
  if t.players.any (fun p => p.name == user.name) then none
  else
    let ps := t.players ++ [user]
    let c :=
      if ps.length == 2 && t.single_player_mode_started then 1
      else t.next_player_index
    some { players := ps, next_player_index := c,
           single_player_mode_started := t.single_player_mode_started }

/-- `TurnTracker::advance_player`: returns the captured player (first
component) and the updated tracker (second component). -/
def TurnTracker.advance_player (t : TurnTracker) : Option User × TurnTracker :=
  if t.players.isEmpty then (none, t)
  else
    let flag := t.players.length == 1
    let current := t.next_player_index
    let nxt := (t.next_player_index + 1) % t.players.length
    (t.players[current]?,
     { players := t.players, next_player_index := nxt,
       single_player_mode_started := flag })

/-- `TurnTracker::num_players`. -/
def TurnTracker.num_players (t : TurnTracker) : Nat :=
  t.players.length

/-- `TurnTracker::is_first_player`. -/
def TurnTracker.is_first_player (t : TurnTracker) (name : String) : Bool :=
  match t.players.head? with
  | some first_player => name == first_player.name
  | none => false

/-- The state after one `advance_player` call (its mutation effect). -/
def advanceState (t : TurnTracker) : TurnTracker :=
  (t.advance_player).2

/-- The player returned by the `(k+1)`-st `advance_player` call, counting
from state `t` (the first `k` calls only mutate, the last one is read). -/
def outAt (t : TurnTracker) (k : Nat) : Option User :=
  ((advanceState^[k] t).advance_player).1

/-- One API call, for reachability over operation sequences. -/
inductive Op where
  | add (u : User)
  | remove (name : String)
  | advance
deriving DecidableEq, Repr

/-- Execute one operation; `none` when the operation panics. -/
def step (t : TurnTracker) : Op → Option TurnTracker
  | Op.add u => t.add_player u
  | Op.remove n => t.remove_player n
  | Op.advance => some (advanceState t)

/-- Execute a sequence of operations. -/
def run (t : TurnTracker) : List Op → Option TurnTracker
  | [] => some t
  | o :: os =>
    match step t o with
    | none => none
    | some t' => run t' os

/-- `t` is reachable from `new players` by some successful call sequence. -/
def Reachable (players : List User) (t : TurnTracker) : Prop :=
  ∃ ops : List Op, run (TurnTracker.new players) ops = some t

/-- The cursor invariant (with unique names, and cursor 0 on empty roster). -/
def TrackerInv (t : TurnTracker) : Prop :=
  (t.players.map User.name).Nodup ∧
  (t.players = [] → t.next_player_index = 0) ∧
  (t.players ≠ [] → t.next_player_index < t.players.length)

/-- Modelled from the spec: the four-case cursor-adjustment rule of
`remove_player` (`i` the removed index, `c` the cursor, `len` the roster
length before removal): `i < c` decrements, `i = c = len-1` wraps to 0,
otherwise the cursor is unchanged. -/
def specCursorAfterRemove (i c len : Nat) : Nat :=
  if i < c then c - 1
  else if i = c ∧ c = len - 1 then 0
  else c

/-- Chains of operations that never touch the single-player flag:
removals, and turn advances taken on an empty roster. -/
inductive FlagPreserved : TurnTracker → TurnTracker → Prop
  | refl (t : TurnTracker) : FlagPreserved t t
  | remove (t : TurnTracker) (n : String) (t' t'' : TurnTracker) :
      t.remove_player n = some t' → FlagPreserved t' t'' → FlagPreserved t t''
  | advanceEmpty (t t'' : TurnTracker) :
      t.players = [] → FlagPreserved (advanceState t) t'' → FlagPreserved t t''

/-- Concrete players for ground instances. -/
def uA : User := { name := "A", color := 0 }

def uB : User := { name := "B", color := 1 }

def uC : User := { name := "C", color := 2 }

/-! ## Basic lemmas about `advance_player` -/

lemma advance_player_empty (t : TurnTracker) (h : t.players = []) :
    t.advance_player = (none, t) := by
  unfold TurnTracker.advance_player
  rw [if_pos (by simp [h])]

lemma advance_player_nonempty (t : TurnTracker) (h : t.players ≠ []) :
    t.advance_player =
      (t.players[t.next_player_index]?,
       { players := t.players,
         next_player_index := (t.next_player_index + 1) % t.players.length,
         single_player_mode_started := t.players.length == 1 }) := by
  unfold TurnTracker.advance_player
  rw [if_neg (by simp [h])]

lemma advanceState_empty (t : TurnTracker) (h : t.players = []) :
    advanceState t = t := by
  unfold advanceState
  rw [advance_player_empty t h]

lemma advanceState_players (t : TurnTracker) : (advanceState t).players = t.players := by
  by_cases h : t.players = []
  · rw [advanceState_empty t h]
  · unfold advanceState
    rw [advance_player_nonempty t h]

lemma advanceState_next (t : TurnTracker) (h : t.players ≠ []) :
    (advanceState t).next_player_index =
      (t.next_player_index + 1) % t.players.length := by
  unfold advanceState
  rw [advance_player_nonempty t h]

lemma advanceState_flag (t : TurnTracker) (h : t.players ≠ []) :
    (advanceState t).single_player_mode_started = (t.players.length == 1) := by
  unfold advanceState
  rw [advance_player_nonempty t h]

lemma iterate_advance_players (t : TurnTracker) (k : Nat) :
    (advanceState^[k] t).players = t.players := by
  induction k with
  | zero => rfl
  | succ k ih =>
    rw [Function.iterate_succ_apply', advanceState_players, ih]

lemma iterate_advance_next (t : TurnTracker) (h : t.players ≠ [])
    (hc : t.next_player_index < t.players.length) (k : Nat) :
    (advanceState^[k] t).next_player_index =
      (t.next_player_index + k) % t.players.length := by
  induction k with
  | zero => simpa using (Nat.mod_eq_of_lt hc).symm
  | succ k ih =>
    have hp : (advanceState^[k] t).players = t.players := iterate_advance_players t k
    rw [Function.iterate_succ_apply', advanceState_next _ (by rw [hp]; exact h), hp, ih,
      Nat.mod_add_mod, ← Nat.add_assoc]

/-- The player returned by the `(k+1)`-st advance on a static roster with a
valid cursor is the one at index `(cursor + k) mod len`. -/
lemma outAt_eq (t : TurnTracker) (h : t.players ≠ [])
    (hc : t.next_player_index < t.players.length) (k : Nat) :
    outAt t k = t.players[(t.next_player_index + k) % t.players.length]? := by
  unfold outAt
  have hp : (advanceState^[k] t).players = t.players := iterate_advance_players t k
  rw [advance_player_nonempty _ (by rw [hp]; exact h), hp,
    iterate_advance_next t h hc k]

lemma outAt_eq_get (t : TurnTracker) (h : t.players ≠ [])
    (hc : t.next_player_index < t.players.length) (k : Nat) :
    outAt t k =
      some (t.players.get ⟨(t.next_player_index + k) % t.players.length,
        Nat.mod_lt _ (List.length_pos.mpr h)⟩) := by
  rw [outAt_eq t h hc k,
    List.getElem?_eq_getElem (Nat.mod_lt _ (List.length_pos.mpr h))]
  rfl

/-! ## Lemmas about `find_position`, `filter` and the mutating operations -/

lemma find_position_eq_none {p : α → Bool} {l : List α}
    (h : ∀ a ∈ l, ¬ p a = true) : find_position p l = none := by
  induction l with
  | nil => rfl
  | cons a l ih =>
    unfold find_position
    rw [if_neg (h a (List.mem_cons_self a l)),
      ih (fun b hb => h b (List.mem_cons_of_mem a hb))]
    rfl

lemma find_position_some_facts {p : α → Bool} {l : List α} {i : Nat}
    (h : find_position p l = some i) :
    ∃ hi : i < l.length, p (l.get ⟨i, hi⟩) = true := by
  induction l generalizing i with
  | nil => simp [find_position] at h
  | cons a l ih =>
    unfold find_position at h
    by_cases hpa : p a = true
    · rw [if_pos hpa] at h
      obtain rfl : i = 0 := by simpa using h.symm
      exact ⟨by simp, hpa⟩
    · rw [if_neg hpa] at h
      obtain ⟨j, hj, rfl⟩ := Option.map_eq_some'.mp h
      obtain ⟨hjl, hpj⟩ := ih hj
      exact ⟨by simpa using hjl, hpj⟩

lemma find_position_some_of_nodup {l : List User} {n : String} {i : Nat}
    (hnd : (l.map User.name).Nodup) (hi : i < l.length)
    (hname : (l.get ⟨i, hi⟩).name = n) :
    find_position (fun u => u.name == n) l = some i := by
  induction l generalizing i with
  | nil => simp at hi
  | cons a l ih =>
    have hnd' : a.name ∉ l.map User.name ∧ (l.map User.name).Nodup :=
      List.nodup_cons.mp (by rw [List.map_cons] at hnd; exact hnd)
    rcases i with _ | j
    · unfold find_position
      rw [if_pos (by simpa using hname)]
    · have hj : j < l.length := by simpa using hi
      have hmem : n ∈ l.map User.name := by
        rw [← (by simpa using hname : (l.get ⟨j, hj⟩).name = n)]
        exact List.mem_map_of_mem User.name (List.get_mem l j hj)
      have hne : ¬ (a.name == n) = true := by
        simp only [beq_iff_eq]
        intro hcontra
        exact hnd'.1 (hcontra ▸ hmem)
      unfold find_position
      rw [if_neg hne, ih hnd'.2 hj (by simpa using hname)]
      rfl

lemma filter_ne_eq_eraseIdx {l : List User} {n : String} {i : Nat}
    (hnd : (l.map User.name).Nodup) (hi : i < l.length)
    (hname : (l.get ⟨i, hi⟩).name = n) :
    l.filter (fun u => u.name != n) = l.eraseIdx i := by
  induction l generalizing i with
  | nil => simp at hi
  | cons a l ih =>
    have hnd' : a.name ∉ l.map User.name ∧ (l.map User.name).Nodup :=
      List.nodup_cons.mp (by rw [List.map_cons] at hnd; exact hnd)
    rcases i with _ | j
    · have ha : a.name = n := by simpa using hname
      have htail : ∀ u ∈ l, (u.name != n) = true := by
        intro u hu
        simp only [bne_iff_ne, ne_eq]
        intro hc
        exact hnd'.1 (ha ▸ hc ▸ List.mem_map_of_mem User.name hu)
      simp only [List.filter_cons, bne_self_eq_false, ha, List.eraseIdx_zero,
        List.tail_cons]
      rw [if_neg (by simp [ha]), List.filter_eq_self.mpr htail]
    · have hj : j < l.length := by simpa using hi
      have hmem : n ∈ l.map User.name := by
        rw [← (by simpa using hname : (l.get ⟨j, hj⟩).name = n)]
        exact List.mem_map_of_mem User.name (List.get_mem l j hj)
      have hane : a.name ≠ n := fun hc => hnd'.1 (hc ▸ hmem)
      rw [List.filter_cons, if_pos (by simpa using hane), List.eraseIdx_cons_succ,
        ih hnd'.2 hj (by simpa using hname)]

lemma remove_player_eq_none (t : TurnTracker) (n : String)
    (h : ∀ p ∈ t.players, p.name ≠ n) : t.remove_player n = none := by
  unfold TurnTracker.remove_player
  rw [find_position_eq_none (fun a ha => by simpa using h a ha)]

lemma remove_player_eq_some (t : TurnTracker) (n : String) (i : Nat)
    (hnd : (t.players.map User.name).Nodup) (hi : i < t.players.length)
    (hname : (t.players.get ⟨i, hi⟩).name = n) :
    t.remove_player n = some
      { players := t.players.eraseIdx i,
        next_player_index :=
          specCursorAfterRemove i t.next_player_index t.players.length,
        single_player_mode_started := t.single_player_mode_started } := by
  unfold TurnTracker.remove_player
  rw [find_position_some_of_nodup hnd hi hname]
  have hcursor :
      (if i ≤ t.next_player_index then
        if i < t.next_player_index then t.next_player_index - 1
        else if t.next_player_index = t.players.length - 1 then 0
        else t.next_player_index
      else t.next_player_index) =
      specCursorAfterRemove i t.next_player_index t.players.length := by
    unfold specCursorAfterRemove
    split_ifs <;> omega
  rw [filter_ne_eq_eraseIdx hnd hi hname]
  simp only [hcursor]

lemma add_player_eq_none (t : TurnTracker) (u : User)
    (h : ∃ p ∈ t.players, p.name = u.name) : t.add_player u = none := by
  unfold TurnTracker.add_player
  rw [if_pos (List.any_eq_true.mpr (by simpa using h))]

lemma add_player_eq_some (t : TurnTracker) (u : User)
    (h : ∀ p ∈ t.players, p.name ≠ u.name) :
    t.add_player u = some
      { players := t.players ++ [u],
        next_player_index :=
          if (t.players ++ [u]).length == 2 && t.single_player_mode_started then 1
          else t.next_player_index,
        single_player_mode_started := t.single_player_mode_started } := by
  unfold TurnTracker.add_player
  rw [if_neg (by simp only [List.any_eq_true]; push_neg; simpa using h)]

/-! ## The cursor invariant and its preservation -/

lemma inv_new (ps : List User) (h : (ps.map User.name).Nodup) :
    TrackerInv (TurnTracker.new ps) :=
  ⟨h, fun _ => rfl, fun hne => List.length_pos.mpr hne⟩

lemma inv_advance (t : TurnTracker) (ht : TrackerInv t) :
    TrackerInv (advanceState t) := by
  by_cases h : t.players = []
  · rw [advanceState_empty t h]
    exact ht
  · refine ⟨?_, ?_, ?_⟩
    · rw [advanceState_players]
      exact ht.1
    · intro he
      rw [advanceState_players] at he
      exact absurd he h
    · intro _
      rw [advanceState_players, advanceState_next t h]
      exact Nat.mod_lt _ (List.length_pos.mpr h)

lemma inv_add (t : TurnTracker) (u : User) (t' : TurnTracker) (ht : TrackerInv t)
    (h : t.add_player u = some t') : TrackerInv t' := by
  by_cases hdup : ∃ p ∈ t.players, p.name = u.name
  · rw [add_player_eq_none t u hdup] at h
    exact absurd h (by simp)
  · push_neg at hdup
    rw [add_player_eq_some t u hdup] at h
    obtain rfl := Option.some_inj.mp h
    refine ⟨?_, ?_, ?_⟩
    · simp only [List.map_append, List.map_cons, List.map_nil, List.nodup_append]
      refine ⟨ht.1, List.nodup_singleton _, ?_⟩
      intro x hx hxu
      obtain ⟨p, hp, rfl⟩ := List.mem_map.mp hx
      exact hdup p hp (by simpa using hxu)
    · intro he
      exact absurd he (by simp)
    · intro _
      dsimp only
      by_cases hflag : ((t.players ++ [u]).length == 2 && t.single_player_mode_started) = true
      · rw [if_pos hflag]
        have h2' : ((t.players ++ [u]).length == 2) = true :=
          (Bool.and_eq_true _ _ ▸ hflag).1
        have h2 : (t.players ++ [u]).length = 2 := by
          have := beq_iff_eq.mp h2'
          exact this
        simp only [List.length_append, List.length_cons, List.length_nil] at h2 ⊢
        omega
      · rw [if_neg hflag]
        simp only [List.length_append, List.length_cons, List.length_nil]
        by_cases he : t.players = []
        · rw [ht.2.1 he, he]
          simp
        · have := ht.2.2 he
          omega

lemma inv_remove (t : TurnTracker) (n : String) (t' : TurnTracker) (ht : TrackerInv t)
    (h : t.remove_player n = some t') : TrackerInv t' := by
  rcases hfp : find_position (fun u => u.name == n) t.players with _ | i
  · unfold TurnTracker.remove_player at h
    rw [hfp] at h
    exact absurd h (by simp)
  · obtain ⟨hi, hpi⟩ := find_position_some_facts hfp
    have hname : (t.players.get ⟨i, hi⟩).name = n := by simpa using hpi
    rw [remove_player_eq_some t n i ht.1 hi hname] at h
    obtain rfl := Option.some_inj.mp h
    have hne : t.players ≠ [] := by
      intro he
      rw [he] at hi
      simp at hi
    have hcur := ht.2.2 hne
    have hlen : (t.players.eraseIdx i).length = t.players.length - 1 :=
      List.length_eraseIdx_of_lt hi
    refine ⟨?_, ?_, ?_⟩
    · exact ht.1.sublist ((t.players.eraseIdx_sublist i).map User.name)
    · intro he
      dsimp only at he ⊢
      have h0 : t.players.length - 1 = 0 := by
        rw [← hlen, he]
        rfl
      unfold specCursorAfterRemove
      split_ifs <;> omega
    · intro hne'
      dsimp only at hne' ⊢
      have h0 : 0 < t.players.length - 1 := by
        rw [← hlen]
        exact List.length_pos.mpr hne'
      rw [hlen]
      unfold specCursorAfterRemove
      split_ifs <;> omega

lemma inv_step (t : TurnTracker) (o : Op) (t' : TurnTracker) (ht : TrackerInv t)
    (h : step t o = some t') : TrackerInv t' := by
  cases o with
  | add u => exact inv_add t u t' ht h
  | remove n => exact inv_remove t n t' ht h
  | advance =>
    obtain rfl := Option.some_inj.mp h
    exact inv_advance t ht

lemma inv_run (t : TurnTracker) (ops : List Op) (t' : TurnTracker) (ht : TrackerInv t)
    (h : run t ops = some t') : TrackerInv t' := by
  induction ops generalizing t with
  | nil =>
    obtain rfl : t = t' := Option.some_inj.mp h
    exact ht
  | cons o os ih =>
    unfold run at h
    rcases hs : step t o with _ | s
    · rw [hs] at h
      exact absurd h (by simp)
    · rw [hs] at h
      exact ih s (inv_step t o s ht hs) h

lemma inv_reachable (ps : List User) (t : TurnTracker)
    (hnd : (ps.map User.name).Nodup) (hr : Reachable ps t) : TrackerInv t := by
  obtain ⟨ops, hops⟩ := hr
  exact inv_run _ ops t (inv_new ps hnd) hops

lemma count_some_map (l : List User) (p : User) :
    (l.map some).count (some p) = l.count p := by
  induction l with
  | nil => rfl
  | cons a l ih =>
    simp only [List.map_cons, List.count_cons, ih]
    congr 1

/-! ## Claim theorems -/

/-- C1: for a roster of `N` distinct players that is never mutated and a
valid cursor, the `N` consecutive `advance_player` calls return every
player exactly once, in insertion order starting from the cursor (the
output sequence is the roster rotated to the cursor), and further calls
repeat the same `N`-player sequence indefinitely (the output is periodic
with period `N`). -/
theorem c1_round_robin (t : TurnTracker) (hne : t.players ≠ [])
    (hc : t.next_player_index < t.players.length) (hnd : t.players.Nodup) :
    ((List.range t.players.length).map (outAt t) =
      (t.players.rotate t.next_player_index).map some) ∧
    (∀ p ∈ t.players,
      ((List.range t.players.length).map (outAt t)).count (some p) = 1) ∧
    (∀ k, outAt t (k + t.players.length) = outAt t k) := by
  have h1 : (List.range t.players.length).map (outAt t) =
      (t.players.rotate t.next_player_index).map some := by
    apply List.ext_getElem
    · simp
    · intro k h1k h2k
      have hk : k < t.players.length := by simpa using h1k
      rw [List.getElem_map, List.getElem_range, outAt_eq_get t hne hc k,
        List.getElem_map, List.getElem_rotate]
      simp only [Nat.add_comm k t.next_player_index, List.get_eq_getElem]
  refine ⟨h1, ?_, ?_⟩
  · intro p hp
    rw [h1, count_some_map, (t.players.rotate_perm t.next_player_index).count_eq p,
      List.count_eq_one_of_mem hnd hp]
  · intro k
    rw [outAt_eq t hne hc k, outAt_eq t hne hc (k + t.players.length),
      ← Nat.add_assoc, Nat.add_mod_right]

theorem c1_round_robin_witness :
    ((List.range 2).map (outAt (TurnTracker.new [uA, uB]))).count (some uA) = 1 :=
  (c1_round_robin (TurnTracker.new [uA, uB]) (by decide) (by decide)
    (by decide)).2.1 uA (by decide)

/-- C3: `remove_player` on a roster with distinct names, given the name of
the player at index `i`, adjusts the cursor exactly by the spec's
four-case rule (`specCursorAfterRemove`), removes that player (the new
roster is `eraseIdx i`, preserving the relative order of all others), and
leaves the single-player flag unchanged. -/
theorem c3_remove_player_cursor (t : TurnTracker) (n : String) (i : Nat)
    (hnd : (t.players.map User.name).Nodup) (hi : i < t.players.length)
    (hname : (t.players.get ⟨i, hi⟩).name = n) :
    t.remove_player n = some
      { players := t.players.eraseIdx i,
        next_player_index :=
          specCursorAfterRemove i t.next_player_index t.players.length,
        single_player_mode_started := t.single_player_mode_started } :=
  remove_player_eq_some t n i hnd hi hname

theorem c3_remove_player_cursor_witness :
    (TurnTracker.mk [uA, uB, uC] 1 false).remove_player "C" =
      some (TurnTracker.mk [uA, uB] 1 false) :=
  c3_remove_player_cursor (TurnTracker.mk [uA, uB, uC] 1 false) "C" 2
    (by decide) (by decide) (by decide)

/-- C6: `advance_player` on an empty roster never fails: it returns no
player and leaves the whole tracker state (roster, cursor, flag)
unchanged. -/
theorem c6_advance_empty_total (t : TurnTracker) (h : t.players = []) :
    t.advance_player = (none, t) :=
  advance_player_empty t h

theorem c6_advance_empty_total_witness :
    (TurnTracker.mk [] 5 true).advance_player = (none, TurnTracker.mk [] 5 true) :=
  c6_advance_empty_total (TurnTracker.mk [] 5 true) rfl

/-- C7: `add_player` with a name already present fails (the Rust code
panics before mutating anything, modelled as `none`: no roster or cursor
change survives); with a fresh name it appends the player at the end of
the roster. -/
theorem c7_add_player_dup (t : TurnTracker) (u : User) :
    ((∃ p ∈ t.players, p.name = u.name) → t.add_player u = none) ∧
    ((∀ p ∈ t.players, p.name ≠ u.name) →
      ∃ t' : TurnTracker, t.add_player u = some t' ∧
        t'.players = t.players ++ [u]) := by
  constructor
  · intro h
    exact add_player_eq_none t u h
  · intro h
    exact ⟨_, add_player_eq_some t u h, rfl⟩

theorem c7_add_player_dup_witness :
    (TurnTracker.mk [uA] 0 false).add_player (User.mk "A" 7) = none ∧
    ∃ t' : TurnTracker, (TurnTracker.mk [uA] 0 false).add_player uB = some t' ∧
      t'.players = [uA] ++ [uB] :=
  ⟨(c7_add_player_dup (TurnTracker.mk [uA] 0 false) (User.mk "A" 7)).1
      ⟨uA, by decide, by decide⟩,
   (c7_add_player_dup (TurnTracker.mk [uA] 0 false) uB).2 (by decide)⟩

/-- C8: `remove_player` with a name absent from the roster fails (the
`unwrap` of the lookup panics before any mutation, modelled as `none`: no
roster or cursor change survives). -/
theorem c8_remove_unknown (t : TurnTracker) (n : String)
    (h : ∀ p ∈ t.players, p.name ≠ n) : t.remove_player n = none :=
  remove_player_eq_none t n h

theorem c8_remove_unknown_witness :
    (TurnTracker.mk [uA, uB] 1 false).remove_player "Z" = none :=
  c8_remove_unknown (TurnTracker.mk [uA, uB] 1 false) "Z" (by decide)

/-- C9: in every state reachable from `new players` (distinct names, the
documented caller obligation at construction) by any successful sequence
of `add_player`, `remove_player` and `advance_player` calls, a non-empty
roster implies `cursor < len(roster)` (the lower bound `0 ≤ cursor` is
automatic for `Nat`). -/
theorem c9_cursor_invariant (ps : List User) (t : TurnTracker)
    (hnd : (ps.map User.name).Nodup) (hr : Reachable ps t)
    (hne : t.players ≠ []) : t.next_player_index < t.players.length :=
  (inv_reachable ps t hnd hr).2.2 hne

theorem c9_cursor_invariant_witness :
    (TurnTracker.mk [uA, uB] 1 false).next_player_index <
      (TurnTracker.mk [uA, uB] 1 false).players.length :=
  c9_cursor_invariant [uA, uB] (TurnTracker.mk [uA, uB] 1 false) (by decide)
    ⟨[Op.advance], by decide⟩ (by decide)

lemma advance_single (A : User) (f : Bool) :
    advanceState (TurnTracker.mk [A] 0 f) = TurnTracker.mk [A] 0 true := by
  unfold advanceState TurnTracker.advance_player
  simp

/-- C2: with roster exactly `[A]` (cursor 0), every advance returns `A`;
after at least one advance the state is `⟨[A], 0, true⟩`; adding `B` then
sets the cursor to 1 (roster size becomes 2 with the flag set), and the
subsequent advances return `B`, `A`, `B`, `A`, ... cycling. -/
theorem c2_single_player_join (A B : User) (hAB : A.name ≠ B.name) (f : Bool) :
    (∀ k, outAt (TurnTracker.mk [A] 0 f) k = some A) ∧
    (∀ m, 1 ≤ m →
      advanceState^[m] (TurnTracker.mk [A] 0 f) = TurnTracker.mk [A] 0 true) ∧
    ((TurnTracker.mk [A] 0 true).add_player B =
      some (TurnTracker.mk [A, B] 1 true)) ∧
    (∀ k, outAt (TurnTracker.mk [A, B] 1 true) k =
      some (if k % 2 = 0 then B else A)) := by
  have hfix : ∀ n, advanceState^[n] (TurnTracker.mk [A] 0 true) =
      TurnTracker.mk [A] 0 true := by
    intro n
    induction n with
    | zero => rfl
    | succ n ih =>
      rw [Function.iterate_succ_apply', ih, advance_single]
  refine ⟨?_, ?_, ?_, ?_⟩
  · intro k
    rw [outAt_eq _ (by simp) (by simp) k]
    simp [Nat.mod_one]
  · intro m hm
    obtain ⟨m', rfl⟩ : ∃ m', m = m' + 1 := ⟨m - 1, by omega⟩
    rw [Function.iterate_succ_apply, advance_single, hfix m']
  · rw [add_player_eq_some _ _ (by simpa using hAB)]
    rfl
  · intro k
    rw [outAt_eq _ (by simp) (by simp) k]
    dsimp only
    simp only [List.length_cons, List.length_nil]
    by_cases hk : k % 2 = 0
    · have h2 : (1 + k) % 2 = 1 := by omega
      rw [h2, if_pos hk]
      rfl
    · have h2 : (1 + k) % 2 = 0 := by omega
      rw [h2, if_neg hk]
      rfl

theorem c2_single_player_join_witness :
    outAt (TurnTracker.mk [uA, uB] 1 true) 0 = some uB :=
  (c2_single_player_join uA uB (by decide) false).2.2.2 0

/-- C4 (amended: restricted to reachable empty states whose single-player
flag is unset; a reachable empty state with the flag still set instead
yields `B` first, see the counterexample): from such a state
`advance_player` returns no player, and adding `A` then `B` (distinct
names) produces exactly the state `new [A, B]`, whose advances return
`A`, `B`, `A`, `B`, ... indefinitely. -/
theorem c4_empty_reentry (ps : List User) (t : TurnTracker) (A B : User)
    (hnd : (ps.map User.name).Nodup) (hr : Reachable ps t)
    (hemp : t.players = []) (hflag : t.single_player_mode_started = false)
    (hAB : A.name ≠ B.name) :
    (t.advance_player).1 = none ∧
    (t.add_player A).bind (fun s => s.add_player B) =
      some (TurnTracker.new [A, B]) ∧
    (∀ k, outAt (TurnTracker.new [A, B]) k =
      some (if k % 2 = 0 then A else B)) := by
  have hc : t.next_player_index = 0 := (inv_reachable ps t hnd hr).2.1 hemp
  obtain ⟨pl, ci, fl⟩ := t
  dsimp only at hemp hflag hc
  subst hemp hflag hc
  refine ⟨?_, ?_, ?_⟩
  · rw [advance_player_empty _ rfl]
  · have h1 : (TurnTracker.mk [] 0 false).add_player A =
        some (TurnTracker.mk [A] 0 false) := by
      rw [add_player_eq_some _ _ (by simp)]
      rfl
    have h2 : (TurnTracker.mk [A] 0 false).add_player B =
        some (TurnTracker.mk [A, B] 0 false) := by
      rw [add_player_eq_some _ _ (by simpa using hAB)]
      rfl
    rw [h1, Option.some_bind, h2]
    rfl
  · intro k
    rw [outAt_eq _ (by simp [TurnTracker.new]) (by simp [TurnTracker.new]) k]
    dsimp only [TurnTracker.new]
    simp only [List.length_cons, List.length_nil]
    by_cases hk : k % 2 = 0
    · have h2 : (0 + k) % 2 = 0 := by omega
      rw [h2, if_pos hk]
      rfl
    · have h2 : (0 + k) % 2 = 1 := by omega
      rw [h2, if_neg hk]
      rfl

theorem c4_empty_reentry_witness :
    ((TurnTracker.mk [] 0 false).add_player uA).bind (fun s => s.add_player uB) =
      some (TurnTracker.new [uA, uB]) :=
  (c4_empty_reentry [uA] (TurnTracker.mk [] 0 false) uA uB (by decide)
    ⟨[Op.remove "A"], by decide⟩ rfl rfl (by decide)).2.1

/-- C4 counterexample: the empty state `⟨[], 0, true⟩` is reachable
(`new [A]`, advance, remove A), yet adding `A` then `B` there sets the
cursor to 1 and the next advance returns `B`, not `A` — unlike
`new [A, B]`, whose first advance returns `A`.  So the claim fails for
this reachable empty state. -/
theorem c4_counterexample :
    run (TurnTracker.new [uA]) [Op.advance, Op.remove "A"] =
      some (TurnTracker.mk [] 0 true) ∧
    ((TurnTracker.mk [] 0 true).advance_player).1 = none ∧
    ((TurnTracker.mk [] 0 true).add_player uA).bind (fun s => s.add_player uB) =
      some (TurnTracker.mk [uA, uB] 1 true) ∧
    outAt (TurnTracker.mk [uA, uB] 1 true) 0 = some uB ∧
    outAt (TurnTracker.new [uA, uB]) 0 = some uA ∧
    uB ≠ uA :=
  ⟨by decide, rfl, by decide, by decide, by decide, by decide⟩

/-- C5 (amended: the flag tracks `len = 1` only on calls with a non-empty
roster; a call on an empty roster returns before the assignment and
leaves the whole state, flag included, unchanged): after `advance_player`
on a non-empty roster, the flag is true iff the roster has exactly one
player. -/
theorem c5_flag_semantics (t : TurnTracker) :
    (t.players ≠ [] →
      ((advanceState t).single_player_mode_started = true ↔
        t.players.length = 1)) ∧
    (t.players = [] → advanceState t = t) := by
  constructor
  · intro h
    rw [advanceState_flag t h]
    exact beq_iff_eq
  · exact advanceState_empty t

theorem c5_flag_semantics_witness :
    ((advanceState (TurnTracker.mk [uA] 0 false)).single_player_mode_started = true ↔
      (TurnTracker.mk [uA] 0 false).players.length = 1) ∧
    advanceState (TurnTracker.mk [] 3 true) = TurnTracker.mk [] 3 true :=
  ⟨(c5_flag_semantics (TurnTracker.mk [uA] 0 false)).1 (by decide),
   (c5_flag_semantics (TurnTracker.mk [] 3 true)).2 rfl⟩

/-- C5 counterexample: the state `⟨[], 0, true⟩` is reachable (`new [A]`,
advance, remove A); calling `advance_player` on it leaves the flag true
although the roster does not have exactly one player — the claimed
"after any call, including on an empty roster, flag = (len = 1)" fails. -/
theorem c5_counterexample :
    run (TurnTracker.new [uA]) [Op.advance, Op.remove "A"] =
      some (TurnTracker.mk [] 0 true) ∧
    (advanceState (TurnTracker.mk [] 0 true)).single_player_mode_started = true ∧
    (TurnTracker.mk [] 0 true).players.length ≠ 1 :=
  ⟨by decide, rfl, by decide⟩

/-- C10: `remove_player` never modifies the single-player flag,
`advance_player` on an empty roster leaves it unchanged, and hence the
flag persists through any chain of removals and empty-roster advances
(`FlagPreserved`), until an advance on a non-empty roster overwrites
it. -/
theorem c10_flag_frame :
    (∀ (t : TurnTracker) (n : String) (t' : TurnTracker),
      t.remove_player n = some t' →
      t'.single_player_mode_started = t.single_player_mode_started) ∧
    (∀ t : TurnTracker, t.players = [] →
      (advanceState t).single_player_mode_started = t.single_player_mode_started) ∧
    (∀ t t' : TurnTracker, FlagPreserved t t' →
      t'.single_player_mode_started = t.single_player_mode_started) := by
  have hrem : ∀ (t : TurnTracker) (n : String) (t' : TurnTracker),
      t.remove_player n = some t' →
      t'.single_player_mode_started = t.single_player_mode_started := by
    intro t n t' h
    unfold TurnTracker.remove_player at h
    rcases hfp : find_position (fun u => u.name == n) t.players with _ | i
    · rw [hfp] at h
      exact absurd h (by simp)
    · rw [hfp] at h
      dsimp only at h
      obtain rfl := Option.some_inj.mp h
      rfl
  refine ⟨hrem, ?_, ?_⟩
  · intro t h
    rw [advanceState_empty t h]
  · intro t t' h
    induction h with
    | refl t => rfl
    | remove t n t1 t2 hr _ ih => rw [ih, hrem t n t1 hr]
    | advanceEmpty t t2 he _ ih => rw [ih, advanceState_empty t he]

theorem c10_flag_frame_witness :
    (TurnTracker.mk [] 0 true).single_player_mode_started =
      (TurnTracker.mk [uA] 0 true).single_player_mode_started :=
  c10_flag_frame.1 (TurnTracker.mk [uA] 0 true) "A" (TurnTracker.mk [] 0 true)
    (by decide)

example : outAt (TurnTracker.new [uA, uB]) 0 = some uA := by decide
example : outAt (TurnTracker.new [uA, uB]) 1 = some uB := by decide
example : outAt (TurnTracker.new [uA, uB]) 2 = some uA := by decide
example : run (TurnTracker.new [uA]) [Op.advance, Op.remove "A"] =
    some { players := [], next_player_index := 0, single_player_mode_started := true } := by
  decide
example : (TurnTracker.mk [] 0 true).add_player uA = some (TurnTracker.mk [uA] 0 true) := by
  decide
example : (TurnTracker.mk [uA] 0 true).add_player uB = some (TurnTracker.mk [uA, uB] 1 true) := by
  decide
example : outAt (TurnTracker.mk [uA, uB] 1 true) 0 = some uB := by decide
